import Mathlib

/-
Verification of the resolution engine and two-tier cache of src/ethereum.js.

The JavaScript source is shallowly embedded as pure Lean functions:
remote contract calls are modelled by oracle functions carried in an Env
value, the LRU store is modelled as an association list (its eviction
policy is an external collaborator and out of scope), wall-clock time is
an explicit Nat argument, and every engine operation returns a FetchResult
carrying its value, the updated cache state, and the number of remote
calls it issued.
-/

namespace HiprEth

/-- Helper from the external bns library: a name is fully qualified when it
ends in the root dot. -/
def isFQDN (s : String) : Bool := s.data.getLast? == some '.'

/-- Helper from the external bns library: strip a trailing root dot. -/
def trimFQDN (s : String) : String := if isFQDN s then String.mk s.data.dropLast else s

/-- Helper from the external bns library: append a trailing root dot when
one is missing. -/
def fqdn (s : String) : String := if isFQDN s then s else s ++ "."

/-- Splitting a character list at every dot, keeping empty segments, with
the semantics of the JavaScript split method for a one-character separator. -/
def splitDotsAux : List Char → List (List Char)
  | [] => [[]]
  | c :: rest =>
    match splitDotsAux rest with
    | h :: t => if c = '.' then [] :: h :: t else (c :: h) :: t
    | [] => [[]]

/-- Splitting a string at every dot into its labels. -/
def splitDots (s : String) : List String := (splitDotsAux s.data).map String.mk

/-- Joining of character lists with a dot between consecutive segments. -/
def joinDotsAux : List (List Char) → List Char
  | [] => []
  | [l] => l
  | l :: ls => l ++ '.' :: joinDotsAux ls

/-- Joining labels back into a dotted name, as the JavaScript join method
with a one-character dot separator. -/
def joinDots (ls : List String) : String := String.mk (joinDotsAux (ls.map String.data))

/-- DNS wire type code for NS records (bns wire.types.NS). -/
def NS : Nat := 2

/-- DNS wire type code for CNAME records (bns wire.types.CNAME). -/
def CNAME : Nat := 5

/-- DNS wire type code for DS records (bns wire.types.DS). -/
def DS : Nat := 43

/-- CACHE_TTL constant of ethereum.js: 30 minutes in milliseconds. -/
def CACHE_TTL : Nat := 30 * 60 * 1000

/-- CACHE_TAGS.DNS of ethereum.js. -/
def CACHE_TAGS_DNS : Nat := 0

/-- CACHE_TAGS.RESOLVER of ethereum.js. -/
def CACHE_TAGS_RESOLVER : Nat := 1

/-- All-zero address sentinel compared against in getResolverFromRegistry. -/
def ZERO_ADDRESS : String := "0x0000000000000000000000000000000000000000"

/-- Value of one hexadecimal digit character, or none for other characters. -/
def hexDigit (c : Char) : Option Nat :=
  if '0' ≤ c ∧ c ≤ '9' then some (c.toNat - '0'.toNat)
  else if 'a' ≤ c ∧ c ≤ 'f' then some (c.toNat - 'a'.toNat + 10)
  else if 'A' ≤ c ∧ c ≤ 'F' then some (c.toNat - 'A'.toNat + 10)
  else none

/-- Hex decoding of a character list, two digits per byte, stopping at the
first incomplete or invalid pair, as Buffer.from(s, hex) does. -/
def hexBytes : List Char → List Nat
  | c1 :: c2 :: rest =>
    match hexDigit c1, hexDigit c2 with
    | some hi, some lo => (16 * hi + lo) :: hexBytes rest
    | _, _ => []
  | _ => []

/-- Hex decoding of a string into raw byte values. -/
def hexDecode (s : String) : List Nat := hexBytes s.data

/-- Resolver contract handle: its on-chain address together with the chain
state behind its dnsRecord view call, modelled as an oracle from
(node hash, name hash, type) to the hex text the RPC layer returns. -/
structure Resolver where
  address : String
  dnsRecord : String → String → Nat → String

/-- Registry contract handle (ethers.Contract over ENS_ABI). -/
structure Registry where
  address : String

/-- Ambient chain and hashing environment: namehash and hashDnsName are
the hash computations of ethereum.js (external collaborators), the
registryResolver oracle is the resolver view call of the registry contract
at a given address, and contractAt models constructing an ethers.Contract
resolver handle bound to an address. -/
structure Env where
  namehash : String → String
  hashDnsName : String → String
  registryResolver : String → String → String
  contractAt : String → Resolver

/-- Payload stored in the shared LRU store: either a DNS record hex text
or a resolver handle. -/
inductive CacheValue where
  | record (s : String)
  | resolver (r : Resolver)

/-- One stored cache item: insertion timestamp plus payload, mirroring the
time and record or resolver fields of the objects ethereum.js stores. -/
structure CacheItem where
  time : Nat
  value : CacheValue

/-- EthereumCache state: the shared LRU store modelled as an association
list from key strings to items (capacity-based eviction is out of scope). -/
structure EthereumCache where
  cache : List (String × CacheItem)

/-- Key construction of EthereumCache.toDnsKey: DNS tag, name, type and
resolver address joined by semicolons. -/
def toDnsKey (name : String) (ty : Nat) (resolverAddress : String) : String :=
  toString CACHE_TAGS_DNS ++ ";" ++ name ++ ";" ++ toString ty ++ ";" ++ resolverAddress

/-- Key construction of EthereumCache.toResolverKey: RESOLVER tag, node and
registry address joined by semicolons. -/
def toResolverKey (node : String) (registryAddress : String) : String :=
  toString CACHE_TAGS_RESOLVER ++ ";" ++ node ++ ";" ++ registryAddress

/-- EthereumCache.setRecord: a falsy record value is replaced by the 0x
sentinel, then the item is stored under the DNS key with the current time. -/
def EthereumCache.setRecord (st : EthereumCache) (now : Nat) (name : String)
    (ty : Nat) (resolverAddress : String) (record : String) : EthereumCache :=
  let key := toDnsKey name ty resolverAddress
  let record := if record = "" then "0x" else record
  ⟨(key, ⟨now, CacheValue.record record⟩) :: st.cache.eraseP (fun kv => kv.1 == key)⟩

/-- EthereumCache.getRecord: look the DNS key up, miss when absent or when
now strictly exceeds the stored time plus CACHE_TTL, otherwise return the
stored record text. -/
def EthereumCache.getRecord (st : EthereumCache) (now : Nat) (name : String)
    (ty : Nat) (resolverAddress : String) : Option String :=
  match st.cache.lookup (toDnsKey name ty resolverAddress) with
  | none => none
  | some item =>
    if now > item.time + CACHE_TTL then none
    else
      match item.value with
      | CacheValue.record s => some s
      | CacheValue.resolver _ => none

/-- EthereumCache.setResolver: storing a falsy resolver is a no-op,
otherwise the handle is stored under the resolver key with the current
time. -/
def EthereumCache.setResolver (st : EthereumCache) (now : Nat) (node : String)
    (registryAddress : String) (resolver : Option Resolver) : EthereumCache :=
  match resolver with
  | none => st
  | some r =>
    let key := toResolverKey node registryAddress
    ⟨(key, ⟨now, CacheValue.resolver r⟩) :: st.cache.eraseP (fun kv => kv.1 == key)⟩

/-- EthereumCache.getResolver: look the resolver key up, miss when absent
or when now strictly exceeds the stored time plus CACHE_TTL, otherwise
return the stored handle. -/
def EthereumCache.getResolver (st : EthereumCache) (now : Nat) (node : String)
    (registryAddress : String) : Option Resolver :=
  match st.cache.lookup (toResolverKey node registryAddress) with
  | none => none
  | some item =>
    if now > item.time + CACHE_TTL then none
    else
      match item.value with
      | CacheValue.resolver r => some r
      | CacheValue.record _ => none

/-- Result of an engine operation: the produced value, the cache state it
leaves behind, and how many remote contract calls it issued. -/
structure FetchResult (α : Type) where
  result : α
  cache : EthereumCache
  calls : Nat

/-- Ethereum.getAbstractEnsRegistry: a registry handle bound to an address. -/
def getAbstractEnsRegistry (address : String) : Registry := ⟨address⟩

/-- Ethereum.getResolverFromRegistry: query the registry for the resolver
of namehash(name); the all-zero address means no resolver, otherwise a
resolver contract handle is constructed at the returned address. -/
def getResolverFromRegistry (env : Env) (registry : Registry) (name : String) :
    Option Resolver :=
  let resolverAddr := env.registryResolver registry.address (env.namehash name)
  if resolverAddr = ZERO_ADDRESS then none
  else some (env.contractAt resolverAddr)

/-- Ethereum.getResolver: consult the cache first; on a miss query the
registry (one remote call) and store the outcome via setResolver. -/
def getResolver (env : Env) (st : EthereumCache) (now : Nat) (name : String)
    (registryAddress : String) : FetchResult (Option Resolver) :=
  match st.getResolver now name registryAddress with
  | some r => ⟨some r, st, 0⟩
  | none =>
    let registry := getAbstractEnsRegistry registryAddress
    let resolver := getResolverFromRegistry env registry name
    ⟨resolver, st.setResolver now name registryAddress resolver, 1⟩

/-- Ethereum.getRRSet: with no resolver return none at once; otherwise
read the record cache, on a falsy entry issue the dnsRecord remote call and
store its result; a falsy or 0x-sentinel record text yields none, anything
else is hex-decoded after stripping its two-character 0x prefix. -/
def getRRSet (env : Env) (st : EthereumCache) (now : Nat) (name : String)
    (ty : Nat) (node : String) (resolver : Option Resolver) :
    FetchResult (Option (List Nat)) :=
  match resolver with
  | none => ⟨none, st, 0⟩
  | some r =>
    let record := (st.getRecord now name ty r.address).getD ""
    let (record, st1, calls) :=
      if record = "" then
        let fetched := r.dnsRecord (env.namehash (trimFQDN node)) (env.hashDnsName name) ty
        (fetched, st.setRecord now name ty r.address fetched, 1)
      else (record, st, 0)
    if record = "" ∨ record = "0x" then ⟨none, st1, calls⟩
    else ⟨some (hexDecode (record.drop 2)), st1, calls⟩

/-- Ethereum.resolveDnsWithResolver: exact match first (for NS also
fetching DS and concatenating when present), then the NS delegation
fallback at the fully qualified node (again with DS), finally the CNAME
fallback at the query name. -/
def resolveDnsWithResolver (env : Env) (st : EthereumCache) (now : Nat)
    (name : String) (ty : Nat) (node : String) (resolver : Option Resolver) :
    FetchResult (Option (List Nat)) :=
  let f1 := getRRSet env st now name ty node resolver
  match f1.result with
  | some rrSet =>
    if ty = NS then
      let f2 := getRRSet env f1.cache now name DS node resolver
      match f2.result with
      | some dsSet => ⟨some (rrSet ++ dsSet), f2.cache, f1.calls + f2.calls⟩
      | none => ⟨some rrSet, f2.cache, f1.calls + f2.calls⟩
    else ⟨some rrSet, f1.cache, f1.calls⟩
  | none =>
    let sname := fqdn node
    let f2 := getRRSet env f1.cache now sname NS node resolver
    match f2.result with
    | some nsSet =>
      let f3 := getRRSet env f2.cache now sname DS node resolver
      match f3.result with
      | some dsSet => ⟨some (nsSet ++ dsSet), f3.cache, f1.calls + f2.calls + f3.calls⟩
      | none => ⟨some nsSet, f3.cache, f1.calls + f2.calls + f3.calls⟩
    | none =>
      let f3 := getRRSet env f2.cache now name CNAME node resolver
      ⟨f3.result, f3.cache, f1.calls + f2.calls + f3.calls⟩

/-- Ethereum.toNode: strip a trailing root dot, split on dots, and when
more than one label remains keep only the last two joined by a dot;
otherwise the original name is returned. -/
def toNode (name : String) : String :=
  let node := name
  let labels := splitDots (trimFQDN name)
  if labels.length > 1 then
    joinDots (labels.drop (labels.length - 2))
  else node

/-- Ethereum.resolveDnsFromAbstractEns: derive the node when the argument
is falsy, validate the NS owner name shape (exactly three labels, middle
label the _eth marker, first label exactly 42 characters), then discover
the resolver through the registry at the embedded address and resolve. -/
def resolveDnsFromAbstractEns (env : Env) (st : EthereumCache) (now : Nat)
    (name : String) (ty : Nat) (ns : String) (nodeArg : Option String) :
    FetchResult (Option (List Nat)) :=
  let node :=
    match nodeArg with
    | none => toNode name
    | some n => if n = "" then toNode name else n
  let labels := splitDots ns
  if labels.length ≠ 3 then ⟨none, st, 0⟩
  else if labels.getD 1 "" ≠ "_eth" then ⟨none, st, 0⟩
  else
    let addr := labels.getD 0 ""
    if addr.length ≠ 42 then ⟨none, st, 0⟩
    else
      let f := getResolver env st now (trimFQDN node) addr
      let g := resolveDnsWithResolver env f.cache now name ty node f.result
      ⟨g.result, g.cache, f.calls + g.calls⟩

/-- Spec view of node derivation exactly as stated: strip the trailing
root label, split; with more than one label keep the last two, otherwise
return the trimmed name unchanged. -/
def deriveNodeClaimed (name : String) : String :=
  let labels := splitDots (trimFQDN name)
  if labels.length > 1 then joinDots ((labels.reverse.take 2).reverse)
  else trimFQDN name

/-- Spec view of node derivation, amended: in the single-label case the
original name is returned unchanged rather than its trimmed form. -/
def deriveNodeAmended (name : String) : String :=
  let labels := splitDots (trimFQDN name)
  if labels.length > 1 then joinDots ((labels.reverse.take 2).reverse)
  else name

/-- Fixture: a resolver handle serving an NS and a DS record and nothing
else. -/
def r0 : Resolver :=
  ⟨"0xR", fun _ _ ty => if ty = 2 then "0x0102" else if ty = 43 then "0xaabb" else "0x"⟩

/-- Fixture: a resolver handle serving no records at all. -/
def r1 : Resolver := ⟨"0xR1", fun _ _ _ => "0x"⟩

/-- Fixture: a resolver handle serving only a CNAME record. -/
def r2 : Resolver := ⟨"0xR2", fun _ _ ty => if ty = 5 then "0xcafe" else "0x"⟩

/-- Fixture: an environment whose registry reports no resolver anywhere. -/
def env0 : Env :=
  ⟨fun s => "nh:" ++ s, fun s => "dh:" ++ s, fun _ _ => ZERO_ADDRESS,
   fun a => ⟨a, fun _ _ _ => "0x"⟩⟩

/-- Fixture: the empty cache state. -/
def st0 : EthereumCache := ⟨[]⟩

/-- Fixture: a cache state holding one record entry and one resolver entry,
both stored at time 5. -/
def st1 : EthereumCache :=
  ⟨[(toDnsKey "n" 1 "a", ⟨5, CacheValue.record "0xff"⟩),
    (toResolverKey "nd" "rg", ⟨5, CacheValue.resolver r1⟩)]⟩

/-- Value of a decimal digit character list read most significant first,
used to invert the decimal rendering of Nat. -/
def digitsVal (l : List Char) : Nat :=
  l.foldl (fun acc c => acc * 10 + (c.toNat - 48)) 0

end HiprEth

namespace HiprEth

/-- Reading a record entry that is present in the store reduces to the
strict freshness comparison against its stored time plus the TTL. -/
theorem getRecord_of_lookup (st : EthereumCache) (name : String) (ty : Nat)
    (addr : String) (tm : Nat) (s : String)
    (h : st.cache.lookup (toDnsKey name ty addr) = some ⟨tm, CacheValue.record s⟩)
    (now : Nat) :
    st.getRecord now name ty addr = if now > tm + CACHE_TTL then none else some s := by
  unfold EthereumCache.getRecord
  rw [h]

/-- Reading a resolver entry that is present in the store reduces to the
strict freshness comparison against its stored time plus the TTL. -/
theorem getResolver_of_lookup (st : EthereumCache) (node reg : String)
    (tm : Nat) (r : Resolver)
    (h : st.cache.lookup (toResolverKey node reg) = some ⟨tm, CacheValue.resolver r⟩)
    (now : Nat) :
    st.getResolver now node reg = if now > tm + CACHE_TTL then none else some r := by
  unfold EthereumCache.getResolver
  rw [h]

/-- Storing a non-empty record text places it, unaltered and under the DNS
key, at the front of the store with the write time. -/
theorem setRecord_lookup (st : EthereumCache) (now : Nat) (name : String)
    (ty : Nat) (addr bytes : String) (hb : bytes ≠ "") :
    (st.setRecord now name ty addr bytes).cache.lookup (toDnsKey name ty addr) =
      some ⟨now, CacheValue.record bytes⟩ := by
  unfold EthereumCache.setRecord
  simp [List.lookup, hb]

/-- C6: after setRecord of a non-empty record text, an immediate getRecord
returns it; once elapsed time strictly exceeds the 30-minute TTL, getRecord
reports a miss while the entry itself is still physically present in the
store. -/
theorem record_ttl_roundtrip (st : EthereumCache) (now : Nat) (name : String)
    (ty : Nat) (addr bytes : String) (hb : bytes ≠ "") :
    (st.setRecord now name ty addr bytes).getRecord now name ty addr = some bytes ∧
    ∀ t, now + CACHE_TTL < t →
      (st.setRecord now name ty addr bytes).getRecord t name ty addr = none ∧
      (st.setRecord now name ty addr bytes).cache.lookup (toDnsKey name ty addr) =
        some ⟨now, CacheValue.record bytes⟩ := by
  have hl := setRecord_lookup st now name ty addr bytes hb
  refine ⟨?_, fun t ht => ⟨?_, hl⟩⟩
  · rw [getRecord_of_lookup _ _ _ _ _ _ hl now, if_neg (by omega)]
  · rw [getRecord_of_lookup _ _ _ _ _ _ hl t, if_pos (by omega)]

/-- Witness for C6 at a concrete record entry. -/
theorem record_ttl_roundtrip_witness :
    (st0.setRecord 5 "n" 1 "a" "0xff").getRecord 5 "n" 1 "a" = some "0xff" ∧
    (st0.setRecord 5 "n" 1 "a" "0xff").getRecord (5 + CACHE_TTL + 1) "n" 1 "a" = none :=
  ⟨(record_ttl_roundtrip st0 5 "n" 1 "a" "0xff" (by decide)).1,
   ((record_ttl_roundtrip st0 5 "n" 1 "a" "0xff" (by decide)).2
      (5 + CACHE_TTL + 1) (by omega)).1⟩

/-- C10: both cache reads compare the clock strictly against the stored
time plus the TTL, so an entry aged exactly the TTL is still fresh and an
entry is stale exactly when the read time strictly exceeds storedAt plus
the TTL. -/
theorem ttl_boundary_strict :
    (∀ (st : EthereumCache) (name : String) (ty : Nat) (addr : String) (tm : Nat) (s : String),
      st.cache.lookup (toDnsKey name ty addr) = some ⟨tm, CacheValue.record s⟩ →
      ∀ now, st.getRecord now name ty addr =
        if now > tm + CACHE_TTL then none else some s) ∧
    (∀ (st : EthereumCache) (node reg : String) (tm : Nat) (r : Resolver),
      st.cache.lookup (toResolverKey node reg) = some ⟨tm, CacheValue.resolver r⟩ →
      ∀ now, st.getResolver now node reg =
        if now > tm + CACHE_TTL then none else some r) :=
  ⟨fun st name ty addr tm s h now => getRecord_of_lookup st name ty addr tm s h now,
   fun st node reg tm r h now => getResolver_of_lookup st node reg tm r h now⟩

/-- Witness for C10: at age exactly the TTL both reads are fresh, one
millisecond later the record read is a miss. -/
theorem ttl_boundary_strict_witness :
    st1.getRecord (5 + CACHE_TTL) "n" 1 "a" = some "0xff" ∧
    st1.getRecord (5 + CACHE_TTL + 1) "n" 1 "a" = none ∧
    st1.getResolver (5 + CACHE_TTL) "nd" "rg" = some r1 :=
  ⟨(ttl_boundary_strict.1 st1 "n" 1 "a" 5 "0xff" rfl (5 + CACHE_TTL)).trans
     (if_neg (by omega)),
   (ttl_boundary_strict.1 st1 "n" 1 "a" 5 "0xff" rfl (5 + CACHE_TTL + 1)).trans
     (if_pos (by omega)),
   (ttl_boundary_strict.2 st1 "nd" "rg" 5 r1 rfl (5 + CACHE_TTL)).trans
     (if_neg (by omega))⟩

/-- C5: a zero-address registry answer yields an absent resolver that is
never written to the cache; setResolver with an absent value is a no-op,
and the lookup result leaves the cache exactly as it was while still
costing one remote registry call. -/
theorem absent_resolver_not_cached :
    (∀ (st : EthereumCache) (now : Nat) (node reg : String),
      st.setResolver now node reg none = st) ∧
    (∀ (env : Env) (st : EthereumCache) (now : Nat) (node reg : String),
      st.getResolver now node reg = none →
      env.registryResolver reg (env.namehash node) = ZERO_ADDRESS →
      (getResolver env st now node reg).result = none ∧
      (getResolver env st now node reg).cache = st ∧
      (getResolver env st now node reg).calls = 1) := by
  constructor
  · intro st now node reg
    rfl
  · intro env st now node reg hmiss hzero
    unfold getResolver
    rw [hmiss]
    unfold getResolverFromRegistry getAbstractEnsRegistry
    simp [hzero, EthereumCache.setResolver]

/-- Witness for C5: with an empty cache and a registry answering the
all-zero address, the lookup returns absent, leaves the cache empty, and
issues exactly one remote call. -/
theorem absent_resolver_not_cached_witness :
    (getResolver env0 st0 0 "x" "0xREG").result = none ∧
    (getResolver env0 st0 0 "x" "0xREG").cache = st0 ∧
    (getResolver env0 st0 0 "x" "0xREG").calls = 1 :=
  absent_resolver_not_cached.2 env0 st0 0 "x" "0xREG" rfl rfl

/-- C8: any NS owner name failing the shape check of the alternate
registry discovery path, namely not exactly three labels, or a middle
label other than the _eth marker, or a first label whose length is not 42,
makes the path return none with no remote call and no cache change. -/
theorem abstract_ens_shape_check (env : Env) (st : EthereumCache) (now : Nat)
    (name : String) (ty : Nat) (ns : String) (nodeArg : Option String)
    (h : (splitDots ns).length ≠ 3 ∨ (splitDots ns).getD 1 "" ≠ "_eth" ∨
         ((splitDots ns).getD 0 "").length ≠ 42) :
    resolveDnsFromAbstractEns env st now name ty ns nodeArg = ⟨none, st, 0⟩ := by
  simp only [resolveDnsFromAbstractEns]
  by_cases h3 : (splitDots ns).length ≠ 3
  · rw [if_pos h3]
  · rw [if_neg h3]
    by_cases h1 : (splitDots ns).getD 1 "" ≠ "_eth"
    · rw [if_pos h1]
    · rw [if_neg h1]
      rcases h with h | h | h
      · exact absurd h (by simpa using h3)
      · exact absurd h (by simpa using h1)
      · rw [if_pos h]

/-- Witness for C8 at a four-label owner name. -/
theorem abstract_ens_shape_check_witness :
    resolveDnsFromAbstractEns env0 st0 0 "x.eth." 1 "a.b.c.d" none = ⟨none, st0, 0⟩ :=
  abstract_ens_shape_check env0 st0 0 "x.eth." 1 "a.b.c.d" none (Or.inl (by decide))

/-- C1: an exact NS answer is returned concatenated with the exact DS
answer when one exists, alone when none exists, and an exact answer of any
other type is returned as-is. -/
theorem ns_exact_includes_ds :
    (∀ (env : Env) (st : EthereumCache) (now : Nat) (name node : String)
        (r : Option Resolver) (ns ds : List Nat),
      (getRRSet env st now name NS node r).result = some ns →
      (getRRSet env (getRRSet env st now name NS node r).cache now name DS node r).result
        = some ds →
      (resolveDnsWithResolver env st now name NS node r).result = some (ns ++ ds)) ∧
    (∀ (env : Env) (st : EthereumCache) (now : Nat) (name node : String)
        (r : Option Resolver) (ns : List Nat),
      (getRRSet env st now name NS node r).result = some ns →
      (getRRSet env (getRRSet env st now name NS node r).cache now name DS node r).result
        = none →
      (resolveDnsWithResolver env st now name NS node r).result = some ns) ∧
    (∀ (env : Env) (st : EthereumCache) (now : Nat) (name : String) (ty : Nat)
        (node : String) (r : Option Resolver) (rr : List Nat),
      ty ≠ NS →
      (getRRSet env st now name ty node r).result = some rr →
      (resolveDnsWithResolver env st now name ty node r).result = some rr) := by
  refine ⟨?_, ?_, ?_⟩
  · intro env st now name node r ns ds h1 h2
    simp [resolveDnsWithResolver, h1, h2]
  · intro env st now name node r ns h1 h2
    simp [resolveDnsWithResolver, h1, h2]
  · intro env st now name ty node r rr hty h1
    simp [resolveDnsWithResolver, h1, hty]

/-- Witness for C1: a resolver with both NS and DS records answers an NS
query with the two byte strings concatenated. -/
theorem ns_exact_includes_ds_witness :
    (resolveDnsWithResolver env0 st0 0 "x.eth." NS "x.eth" (some r0)).result
      = some ([1, 2] ++ [170, 187]) :=
  ns_exact_includes_ds.1 env0 st0 0 "x.eth." "x.eth" (some r0) [1, 2] [170, 187]
    (by decide) (by decide)

/-- C2: with no exact answer, the fallback fetches NS at the fully
qualified node rather than the query name, appends the DS set fetched at
that same name when present, and returns the NS set alone otherwise. -/
theorem delegation_fallback_at_apex (env : Env) (st : EthereumCache) (now : Nat)
    (name : String) (ty : Nat) (node : String) (r : Option Resolver)
    (h1 : (getRRSet env st now name ty node r).result = none)
    (ns : List Nat)
    (h2 : (getRRSet env (getRRSet env st now name ty node r).cache now
            (fqdn node) NS node r).result = some ns) :
    ((getRRSet env (getRRSet env (getRRSet env st now name ty node r).cache now
        (fqdn node) NS node r).cache now (fqdn node) DS node r).result = none →
      (resolveDnsWithResolver env st now name ty node r).result = some ns) ∧
    (∀ ds, (getRRSet env (getRRSet env (getRRSet env st now name ty node r).cache now
        (fqdn node) NS node r).cache now (fqdn node) DS node r).result = some ds →
      (resolveDnsWithResolver env st now name ty node r).result = some (ns ++ ds)) := by
  constructor
  · intro h3
    simp [resolveDnsWithResolver, h1, h2, h3]
  · intro ds h3
    simp [resolveDnsWithResolver, h1, h2, h3]

/-- Witness for C2: a query for a type the resolver does not serve falls
back to the apex NS record and appends the apex DS record. -/
theorem delegation_fallback_at_apex_witness :
    (resolveDnsWithResolver env0 st0 0 "x.eth." 1 "x.eth" (some r0)).result
      = some ([1, 2] ++ [170, 187]) :=
  (delegation_fallback_at_apex env0 st0 0 "x.eth." 1 "x.eth" (some r0)
      (by decide) [1, 2] (by decide)).2 [170, 187] (by decide)

/-- C3: when the exact step and the apex NS step both fail, the chain
returns exactly the CNAME fetch at the query name, and the chain returns
none precisely when all three steps yield nothing. -/
theorem cname_fallback_last (env : Env) (st : EthereumCache) (now : Nat)
    (name : String) (ty : Nat) (node : String) (r : Option Resolver) :
    ((getRRSet env st now name ty node r).result = none →
     (getRRSet env (getRRSet env st now name ty node r).cache now
        (fqdn node) NS node r).result = none →
     (resolveDnsWithResolver env st now name ty node r).result =
       (getRRSet env (getRRSet env (getRRSet env st now name ty node r).cache now
          (fqdn node) NS node r).cache now name CNAME node r).result) ∧
    ((resolveDnsWithResolver env st now name ty node r).result = none ↔
      ((getRRSet env st now name ty node r).result = none ∧
       (getRRSet env (getRRSet env st now name ty node r).cache now
          (fqdn node) NS node r).result = none ∧
       (getRRSet env (getRRSet env (getRRSet env st now name ty node r).cache now
          (fqdn node) NS node r).cache now name CNAME node r).result = none)) := by
  constructor
  · intro h1 h2
    simp [resolveDnsWithResolver, h1, h2]
  · cases h1 : (getRRSet env st now name ty node r).result with
    | some rr =>
      simp only [resolveDnsWithResolver, h1]
      by_cases hty : ty = NS
      · cases h2 : (getRRSet env (getRRSet env st now name ty node r).cache now
            name DS node r).result <;> simp [hty, h2]
      · simp [hty]
    | none =>
      cases h2 : (getRRSet env (getRRSet env st now name ty node r).cache now
          (fqdn node) NS node r).result with
      | some nsSet =>
        cases h3 : (getRRSet env (getRRSet env (getRRSet env st now name ty node r).cache
            now (fqdn node) NS node r).cache now (fqdn node) DS node r).result <;>
          simp [resolveDnsWithResolver, h1, h2, h3]
      | none =>
        simp [resolveDnsWithResolver, h1, h2]

/-- Witness for C3: with a resolver serving only a CNAME, resolution of an
address query returns the CNAME bytes, and with a resolver serving nothing
it returns none. -/
theorem cname_fallback_last_witness :
    (resolveDnsWithResolver env0 st0 0 "x.eth." 1 "x.eth" (some r2)).result
      = (getRRSet env0 (getRRSet env0 (getRRSet env0 st0 0 "x.eth." 1 "x.eth"
          (some r2)).cache 0 (fqdn "x.eth") NS "x.eth" (some r2)).cache 0
          "x.eth." CNAME "x.eth" (some r2)).result ∧
    (resolveDnsWithResolver env0 st0 0 "x.eth." 1 "x.eth" (some r1)).result = none :=
  ⟨(cname_fallback_last env0 st0 0 "x.eth." 1 "x.eth" (some r2)).1
      (by decide) (by decide),
   (cname_fallback_last env0 st0 0 "x.eth." 1 "x.eth" (some r1)).2.mpr
      ⟨by decide, by decide, by decide⟩⟩

/-- C4: getRRSet answers none with no remote call when the resolver is
absent, answers none on a cached or freshly fetched empty sentinel, and
otherwise hex-decodes the record text after stripping its two-character
prefix. -/
theorem getRRSet_contract :
    (∀ (env : Env) (st : EthereumCache) (now : Nat) (name : String) (ty : Nat)
        (node : String),
      getRRSet env st now name ty node none = ⟨none, st, 0⟩) ∧
    (∀ (env : Env) (st : EthereumCache) (now : Nat) (name : String) (ty : Nat)
        (node : String) (r : Resolver),
      (st.getRecord now name ty r.address).getD "" = "0x" →
      getRRSet env st now name ty node (some r) = ⟨none, st, 0⟩) ∧
    (∀ (env : Env) (st : EthereumCache) (now : Nat) (name : String) (ty : Nat)
        (node : String) (r : Resolver),
      (st.getRecord now name ty r.address).getD "" = "" →
      r.dnsRecord (env.namehash (trimFQDN node)) (env.hashDnsName name) ty = "0x" →
      (getRRSet env st now name ty node (some r)).result = none) ∧
    (∀ (env : Env) (st : EthereumCache) (now : Nat) (name : String) (ty : Nat)
        (node : String) (r : Resolver) (s : String),
      (st.getRecord now name ty r.address).getD "" = s → s ≠ "" → s ≠ "0x" →
      (getRRSet env st now name ty node (some r)).result
        = some (hexDecode (s.drop 2))) ∧
    (∀ (env : Env) (st : EthereumCache) (now : Nat) (name : String) (ty : Nat)
        (node : String) (r : Resolver) (s : String),
      (st.getRecord now name ty r.address).getD "" = "" →
      r.dnsRecord (env.namehash (trimFQDN node)) (env.hashDnsName name) ty = s →
      s ≠ "" → s ≠ "0x" →
      (getRRSet env st now name ty node (some r)).result
        = some (hexDecode (s.drop 2))) := by
  refine ⟨fun env st now name ty node => rfl, ?_, ?_, ?_, ?_⟩
  · intro env st now name ty node r hc
    have hne : ¬ (("0x" : String) = "") := by decide
    simp [getRRSet, hc, hne]
  · intro env st now name ty node r hc hf
    simp [getRRSet, hc, hf]
  · intro env st now name ty node r s hc hs hx
    simp [getRRSet, hc, hs, hx]
  · intro env st now name ty node r s hc hf hs hx
    simp [getRRSet, hc, hf, hs, hx]

/-- Witness for C4: on an empty cache the fetched NS text is decoded after
stripping its prefix. -/
theorem getRRSet_contract_witness :
    (getRRSet env0 st0 0 "x.eth." NS "x.eth" (some r0)).result
      = some (hexDecode (("0x0102" : String).drop 2)) :=
  getRRSet_contract.2.2.2.2 env0 st0 0 "x.eth." NS "x.eth" r0 "0x0102"
    (by decide) (by decide) (by decide) (by decide)

/-- C7 counterexample: at the single-label fully qualified input the code
returns the original name with its trailing root dot, while the claim
states that the trimmed name is returned. -/
theorem toNode_single_label_fqdn_counterexample :
    toNode "eth." ≠ deriveNodeClaimed "eth." ∧
    toNode "eth." = "eth." ∧ deriveNodeClaimed "eth." = "eth" :=
  ⟨by decide, by decide, by decide⟩

/-- C7 amended: node derivation strips a trailing root label, splits into
labels, keeps the last two (the apex pair) joined when more than one label
remains, and otherwise returns the original, untrimmed name unchanged; the
three concrete examples of the spec all hold. -/
theorem toNode_refines_amended_spec :
    (∀ name, toNode name = deriveNodeAmended name) ∧
    toNode "a.b.example.eth" = "example.eth" ∧
    toNode "eth" = "eth" ∧
    toNode "example.eth" = "example.eth" := by
  refine ⟨?_, by decide, by decide, by decide⟩
  intro name
  simp only [toNode, deriveNodeAmended]
  have h := List.rtake_eq_reverse_take_reverse (splitDots (trimFQDN name)) 2
  rw [List.rtake] at h
  rw [h]

/-- C9 counterexample: a semicolon inside the name component lets two
distinct (name, type, resolverAddress) triples build the same DNS cache
key, so key construction is not disambiguating over all inputs. -/
theorem cache_key_collision_counterexample :
    toDnsKey "a;1" 2 "x" = toDnsKey "a" 1 "2;x" ∧
    ¬(("a;1" : String) = "a" ∧ (2 : Nat) = 1 ∧ ("x" : String) = "2;x") :=
  ⟨by decide, by decide⟩

/-- Splitting at the first semicolon is unambiguous when neither left part
contains a semicolon. -/
theorem append_semicolon_inj (l1 : List Char) : ∀ (l2 r1 r2 : List Char),
    ';' ∉ l1 → ';' ∉ l2 → l1 ++ ';' :: r1 = l2 ++ ';' :: r2 → l1 = l2 ∧ r1 = r2 := by
  induction l1 with
  | nil =>
    intro l2 r1 r2 _ h2 h
    cases l2 with
    | nil => simpa using h
    | cons b bs =>
      simp only [List.nil_append, List.cons_append] at h
      injection h with hb _
      exact absurd (hb ▸ List.mem_cons_self b bs) h2
  | cons a as ih =>
    intro l2 r1 r2 h1 h2 h
    cases l2 with
    | nil =>
      simp only [List.cons_append, List.nil_append] at h
      injection h with ha _
      exact absurd (ha ▸ List.mem_cons_self a as) h1
    | cons b bs =>
      simp only [List.cons_append] at h
      injection h with hab ht
      have h1t : ';' ∉ as := fun hm => h1 (List.mem_cons_of_mem a hm)
      have h2t : ';' ∉ bs := fun hm => h2 (List.mem_cons_of_mem b hm)
      obtain ⟨he, hr⟩ := ih bs r1 r2 h1t h2t ht
      exact ⟨by rw [hab, he], hr⟩

/-- Accumulator law of the decimal digit printer from core. -/
theorem toDigitsCore_acc (b : Nat) : ∀ (fuel n : Nat) (ds : List Char),
    Nat.toDigitsCore b fuel n ds = Nat.toDigitsCore b fuel n [] ++ ds := by
  intro fuel
  induction fuel with
  | zero => intro n ds; simp [Nat.toDigitsCore]
  | succ f ih =>
    intro n ds
    simp only [Nat.toDigitsCore]
    by_cases h : n / b = 0
    · simp [h]
    · rw [if_neg h, if_neg h, ih (n / b) (Nat.digitChar (n % b) :: ds),
        ih (n / b) [Nat.digitChar (n % b)], List.append_assoc, List.singleton_append]

/-- Code point of a decimal digit character. -/
theorem digitChar_toNat {d : Nat} (h : d < 10) : (Nat.digitChar d).toNat = 48 + d := by
  interval_cases d <;> decide

/-- Decimal digit characters are never the semicolon. -/
theorem digitChar_ne_semicolon {d : Nat} (h : d < 10) : Nat.digitChar d ≠ ';' := by
  interval_cases d <;> decide

/-- Folding one more digit character multiplies the accumulated value by
ten and adds its digit. -/
theorem digitsVal_append (l : List Char) (c : Char) :
    digitsVal (l ++ [c]) = digitsVal l * 10 + (c.toNat - 48) := by
  simp [digitsVal, List.foldl_append]

/-- The digit printer from core is inverted by digitsVal whenever its fuel
exceeds its argument. -/
theorem toDigitsCore_val : ∀ (fuel n : Nat), n < fuel →
    digitsVal (Nat.toDigitsCore 10 fuel n []) = n := by
  intro fuel
  induction fuel with
  | zero => intro n h; omega
  | succ f ih =>
    intro n h
    have hmod : n % 10 < 10 := Nat.mod_lt _ (by norm_num)
    have hdm := Nat.div_add_mod n 10
    simp only [Nat.toDigitsCore]
    by_cases h0 : n / 10 = 0
    · rw [if_pos h0]
      have hd := digitChar_toNat hmod
      simp [digitsVal, hd]
      omega
    · rw [if_neg h0, toDigitsCore_acc, digitsVal_append,
        ih (n / 10) (by omega), digitChar_toNat hmod]
      omega

/-- The semicolon never occurs among printed decimal digits. -/
theorem semicolon_not_mem_toDigitsCore : ∀ (fuel n : Nat),
    ';' ∉ Nat.toDigitsCore 10 fuel n [] := by
  intro fuel
  induction fuel with
  | zero => intro n; simp [Nat.toDigitsCore]
  | succ f ih =>
    intro n
    have hmod : n % 10 < 10 := Nat.mod_lt _ (by norm_num)
    simp only [Nat.toDigitsCore]
    by_cases h0 : n / 10 = 0
    · rw [if_pos h0]
      intro hmem
      have : ';' = Nat.digitChar (n % 10) := by simpa using hmem
      exact digitChar_ne_semicolon hmod this.symm
    · rw [if_neg h0, toDigitsCore_acc]
      intro hmem
      rcases List.mem_append.1 hmem with hmem | hmem
      · exact ih (n / 10) hmem
      · have : ';' = Nat.digitChar (n % 10) := by simpa using hmem
        exact digitChar_ne_semicolon hmod this.symm

/-- Characters of the decimal rendering of a Nat. -/
theorem repr_data_eq (n : Nat) : (Nat.repr n).data = Nat.toDigitsCore 10 (n + 1) n [] := rfl

/-- The decimal rendering is inverted by digitsVal. -/
theorem digitsVal_repr (n : Nat) : digitsVal (Nat.repr n).data = n :=
  toDigitsCore_val (n + 1) n (Nat.lt_succ_self n)

/-- The decimal rendering of Nat is injective. -/
theorem repr_inj {m n : Nat} (h : Nat.repr m = Nat.repr n) : m = n := by
  have h2 := congrArg (fun s => digitsVal s.data) h
  simpa [digitsVal_repr] using h2

/-- The decimal rendering of a Nat never contains a semicolon. -/
theorem semicolon_not_mem_repr (n : Nat) : ';' ∉ (Nat.repr n).data := by
  rw [repr_data_eq]
  exact semicolon_not_mem_toDigitsCore (n + 1) n

/-- Strings with equal character data are equal. -/
theorem string_data_inj {s t : String} (h : s.data = t.data) : s = t := by
  cases s
  cases t
  cases h
  rfl

/-- Character data of a DNS cache key. -/
theorem toDnsKey_data (name : String) (ty : Nat) (addr : String) :
    (toDnsKey name ty addr).data
      = '0' :: ';' :: (name.data ++ ';' :: ((Nat.repr ty).data ++ ';' :: addr.data)) := by
  have h0 : (toString CACHE_TAGS_DNS).data = ['0'] := rfl
  have hs : (";" : String).data = [';'] := rfl
  have ht : (toString ty).data = (Nat.repr ty).data := rfl
  simp [toDnsKey, h0, hs, ht, List.append_assoc]

/-- Character data of a resolver cache key. -/
theorem toResolverKey_data (node reg : String) :
    (toResolverKey node reg).data
      = '1' :: ';' :: (node.data ++ ';' :: reg.data) := by
  have h0 : (toString CACHE_TAGS_RESOLVER).data = ['1'] := rfl
  have hs : (";" : String).data = [';'] := rfl
  simp [toResolverKey, h0, hs, List.append_assoc]

/-- C9 amended: for names and nodes free of the semicolon separator, equal
DNS keys force equal (name, type, resolverAddress) triples, equal resolver
keys force equal (node, registryAddress) pairs, and the two tag classes
never collide in the shared store. -/
theorem cache_key_disambiguation_amended :
    (∀ (n : String) (t : Nat) (a n' : String) (t' : Nat) (a' : String),
      ';' ∉ n.data → ';' ∉ n'.data →
      toDnsKey n t a = toDnsKey n' t' a' → n = n' ∧ t = t' ∧ a = a') ∧
    (∀ (nd rg nd' rg' : String),
      ';' ∉ nd.data → ';' ∉ nd'.data →
      toResolverKey nd rg = toResolverKey nd' rg' → nd = nd' ∧ rg = rg') ∧
    (∀ (n : String) (t : Nat) (a nd rg : String),
      toDnsKey n t a ≠ toResolverKey nd rg) := by
  refine ⟨?_, ?_, ?_⟩
  · intro n t a n' t' a' hn hn' h
    have hd := congrArg String.data h
    rw [toDnsKey_data, toDnsKey_data] at hd
    injection hd with _ hd
    injection hd with _ hd
    obtain ⟨h1, h2⟩ := append_semicolon_inj n.data n'.data _ _ hn hn' hd
    obtain ⟨h3, h4⟩ := append_semicolon_inj (Nat.repr t).data (Nat.repr t').data _ _
      (semicolon_not_mem_repr t) (semicolon_not_mem_repr t') h2
    exact ⟨string_data_inj h1, repr_inj (string_data_inj h3), string_data_inj h4⟩
  · intro nd rg nd' rg' hn hn' h
    have hd := congrArg String.data h
    rw [toResolverKey_data, toResolverKey_data] at hd
    injection hd with _ hd
    injection hd with _ hd
    obtain ⟨h1, h2⟩ := append_semicolon_inj nd.data nd'.data _ _ hn hn' hd
    exact ⟨string_data_inj h1, string_data_inj h2⟩
  · intro n t a nd rg h
    have hd := congrArg String.data h
    rw [toDnsKey_data, toResolverKey_data] at hd
    injection hd with h01 _
    exact absurd h01 (by decide)

/-- Witness for the amended C9 at concrete semicolon-free components. -/
theorem cache_key_disambiguation_amended_witness :
    ("n" : String) = "n" ∧ (2 : Nat) = 2 ∧ ("a" : String) = "a" :=
  cache_key_disambiguation_amended.1 "n" 2 "a" "n" 2 "a" (by decide) (by decide) rfl

end HiprEth
